import Mathlib

set_option maxRecDepth 100000

/-!
Verification development for the OmanX chat backend (server.js advanced
variant + prompts.js).  The request-handling core is shallowly embedded:

* JSON values (the parsed content of knowledge.json) as an inductive `Json`
  with JavaScript truthiness, `typeof`-object test, property access and
  `String(...)` coercion;
* the lane classifier `isLocalLifeQuery` / `lane` with its two fixed keyword
  lists and substring matching (`String.prototype.includes`);
* the knowledge manager (`KnowledgeManager.load`, `getText`) over an explicit
  state record, with the filesystem stat/read/parse results passed as inputs
  (stat and parse failures occur before the modelled logic runs);
* the prompt renderer `buildKnowledgeText` and the system-prompt assembly
  `systemText`;
* the response cache (`ResponseCache.get` / `set`) over an association list
  with JavaScript `Map` insertion-order semantics;
* the streaming event loop (delta accumulation, terminal event, retroactive
  cache store) and the non-streaming error mapping of the `/chat` handler.

Machine timestamps are `Int` milliseconds.  The sha256 fingerprint
`keyFor` is modelled by its (injective) preimage string
`model::mode::lane::message`; the claims about it use only determinism and
key equality, never collision behaviour.
-/

/-- JSON values as produced by `JSON.parse` (numbers as integers: every
numeric literal relevant here is integral, and no claim depends on float
behaviour). -/
inductive Json where
  | null : Json
  | bool : Bool → Json
  | num : Int → Json
  | str : String → Json
  | arr : List Json → Json
  | obj : List (String × Json) → Json

/-- JavaScript truthiness of a JSON value. -/
def Json.truthy : Json → Bool
  | .null => false
  | .bool b => b
  | .num n => !(n == 0)
  | .str s => !(s == "")
  | .arr _ => true
  | .obj _ => true

/-- `typeof v === "object"` for a JSON value (true for null, arrays and
objects). -/
def Json.typeofObject : Json → Bool
  | .null => true
  | .arr _ => true
  | .obj _ => true
  | _ => false

/-- Property access `v.f` on a JSON value: `some` on an object field that is
present, `none` (JavaScript `undefined`) otherwise. -/
def Json.getField : Json → String → Option Json
  | .obj fields, f => (fields.find? (fun p => p.1 == f)).map (fun p => p.2)
  | _, _ => none

mutual

/-- JavaScript `String(v)` coercion of a JSON value. -/
def Json.toJsString : Json → String
  | .null => "null"
  | .bool true => "true"
  | .bool false => "false"
  | .num n => toString n
  | .str s => s
  | .arr xs => String.intercalate "," (Json.arrElemStrings xs)
  | .obj _ => "[object Object]"

/-- Element strings of `Array.prototype.toString` (null elements render
empty). -/
def Json.arrElemStrings : List Json → List String
  | [] => []
  | .null :: xs => "" :: Json.arrElemStrings xs
  | x :: xs => Json.toJsString x :: Json.arrElemStrings xs

end

/-- Whitespace as trimmed by `String.prototype.trim` (the characters that
occur in this code base). -/
def jsWhitespace (c : Char) : Bool :=
  c == ' ' || c == '\n' || c == '\t' || c == '\r'

/-- `String.prototype.trim`. -/
def jsTrim (s : String) : String :=
  ⟨((s.data.dropWhile jsWhitespace).reverse.dropWhile jsWhitespace).reverse⟩

/-- `String.prototype.toLowerCase` (ASCII; every keyword is ASCII). -/
def jsToLower (s : String) : String :=
  ⟨s.data.map Char.toLower⟩

/-- Boolean prefix test on character lists. -/
def isPrefixListB : List Char → List Char → Bool
  | [], _ => true
  | _ :: _, [] => false
  | a :: as, b :: bs => a == b && isPrefixListB as bs

/-- Boolean substring test on character lists: `k` occurs contiguously in the
second argument. -/
def containsListB (k : List Char) : List Char → Bool
  | [] => isPrefixListB k []
  | c :: rest => isPrefixListB k (c :: rest) || containsListB k rest

/-- `t.includes(k)` for strings. -/
def jsIncludes (t k : String) : Bool :=
  containsListB k.data t.data

/-- `k` is a contiguous substring of `s` (propositional form). -/
def SubstrOf (k s : String) : Prop :=
  ∃ pre suf : List Char, s.data = pre ++ k.data ++ suf

/-- The local-life keyword list of `isLocalLifeQuery`. -/
def localHits : List String :=
  ["restaurant", "restaurants", "food", "eat", "nearby", "near me", "cafe",
   "coffee", "pizza", "bar", "brunch", "gym", "grocery", "supermarket",
   "laundry", "philly", "philadelphia", "spring garden", "center city",
   "rittenhouse", "fishtown", "old city", "university city", "things to do",
   "recommend", "recommendation"]

/-- The governed-topic keyword list of `isLocalLifeQuery`. -/
def governedHits : List String :=
  ["i-20", "ds-2019", "sevis", "dso", "visa", "immigration", "status",
   "work authorization", "opt", "cpt", "legal", "police", "emergency", "911",
   "insurance", "medical", "hospital", "scholarship", "ministry", "funding",
   "reimbursement", "housing contract", "lease"]

/-- `isLocalLifeQuery` from server.js: governed keywords veto, then local
keywords match, on the lower-cased message. -/
def isLocalLifeQuery (text : String) : Bool :=
  let t := jsToLower text
  if governedHits.any (fun k => jsIncludes t k) then false
  else localHits.any (fun k => jsIncludes t k)

/-- The derived routing lane of the `/chat` handler. -/
def lane (message : String) : String :=
  if isLocalLifeQuery message then "local" else "scholar"

theorem isPrefixListB_iff (k : List Char) :
    ∀ t : List Char, isPrefixListB k t = true ↔ ∃ suf, t = k ++ suf := by
  induction k with
  | nil =>
    intro t
    simp [isPrefixListB]
  | cons a as ih =>
    intro t
    cases t with
    | nil =>
      simp [isPrefixListB]
    | cons b bs =>
      simp only [isPrefixListB, Bool.and_eq_true, beq_iff_eq, ih bs,
        List.cons_append, List.cons.injEq]
      constructor
      · rintro ⟨hab, suf, hsuf⟩
        exact ⟨suf, hab.symm, hsuf⟩
      · rintro ⟨suf, hab, hsuf⟩
        exact ⟨hab.symm, suf, hsuf⟩

theorem containsListB_iff (k : List Char) :
    ∀ t : List Char, containsListB k t = true ↔ ∃ pre suf, t = pre ++ k ++ suf := by
  intro t
  induction t with
  | nil =>
    simp only [containsListB, isPrefixListB_iff]
    constructor
    · rintro ⟨suf, hsuf⟩
      exact ⟨[], suf, by simpa using hsuf⟩
    · rintro ⟨pre, suf, hsuf⟩
      have hpre : pre = [] := by
        cases pre with
        | nil => rfl
        | cons x xs => simp at hsuf
      subst hpre
      exact ⟨suf, by simpa using hsuf⟩
  | cons c rest ih =>
    simp only [containsListB, Bool.or_eq_true, isPrefixListB_iff, ih]
    constructor
    · rintro (⟨suf, hsuf⟩ | ⟨pre, suf, hsuf⟩)
      · exact ⟨[], suf, by simpa using hsuf⟩
      · exact ⟨c :: pre, suf, by simp [hsuf]⟩
    · rintro ⟨pre, suf, hsuf⟩
      cases pre with
      | nil =>
        exact Or.inl ⟨suf, by simpa using hsuf⟩
      | cons x xs =>
        simp only [List.cons_append, List.cons.injEq] at hsuf
        exact Or.inr ⟨xs, suf, by simp [hsuf.2]⟩

theorem jsIncludes_iff (t k : String) : jsIncludes t k = true ↔ SubstrOf k t := by
  simpa [jsIncludes, SubstrOf, List.append_assoc] using containsListB_iff k.data t.data

/-- `SYSTEM_POLICY_SCHOLAR` from prompts.js: the template literal content,
trimmed at definition as in the source (`...`.trim()). -/
def SYSTEM_POLICY_SCHOLAR : String :=
  jsTrim ("\nYou are OmanX, a government-ready AI onboarding assistant for Omani scholars in the United States.\n\nSTRICT MODE (Scholar Lane):\n- Use ONLY the provided KNOWLEDGE for factual claims about policies, requirements, or official processes.\n- If the KNOWLEDGE does not cover something, say you do not have enough approved information and direct the student to the appropriate official office (university international office/DSO, embassy, ministry).\n- HIGH-STAKES: immigration/visa/status, legal, medical, safety, scholarship compliance:\n  - Do NOT guess.\n  - Do NOT provide legal/medical advice.\n  - Escalate to official authorities.\n- Do not invent links or OmanX pages.\n\nOUTPUT STYLE:\n- Default to a clean, structured answer.\n- Include a \"References\" section ONLY if you actually used items from the KNOWLEDGE.\n")

/-- `SYSTEM_POLICY_LOCAL` from prompts.js, trimmed at definition as in the
source. -/
def SYSTEM_POLICY_LOCAL : String :=
  jsTrim ("\nYou are OmanX Local Guide (Lifestyle Lane).\n\nLOCAL MODE:\n- Answer naturally and helpfully for local life topics (restaurants, groceries, transit, services).\n- Do NOT force a rigid template.\n- Do NOT cite \"OmanX references\" unless relevant.\n- You may ask 1 quick follow-up question if needed (budget, cuisine, walking distance).\n- If the user asks HIGH-STAKES topics (immigration/legal/medical/emergency), advise contacting official offices/911 and keep it conservative.\n\nIMPORTANT:\n- If you do not have real data for nearby places, be honest and recommend how to find the best options nearby (Google Maps/Yelp), and ask preferences.\n")

/-- The system-prompt assembly of the `/chat` handler: the local lane uses the
local policy verbatim; the scholar lane appends the MODE marker and either the
knowledge block or the explicit not-loaded marker, depending on the store text
`kb`. -/
def systemText (message mode kb : String) : String :=
  if lane message == "local" then
    jsTrim SYSTEM_POLICY_LOCAL
  else
    jsTrim SYSTEM_POLICY_SCHOLAR ++ "\n\nMODE: " ++ mode ++ "\n" ++
      (if kb == "" then "\nKNOWLEDGE: (not loaded)\n"
       else "\nKNOWLEDGE (approved sources):\n" ++ kb ++ "\n")

/-- JavaScript `a || b` over a possibly-undefined value (the truthy-chain used
for `item.title || item.name || "Item"`). -/
def jsOrJ (a : Option Json) (b : Json) : Json :=
  match a with
  | some v => if v.truthy then v else b
  | none => b

/-- `Object.entries` for the values that reach it in `buildKnowledgeText`
(objects in insertion order; arrays by index). -/
def Json.jsEntries : Json → List (String × Json)
  | .obj fields => fields
  | .arr xs => xs.enum.map (fun p => (toString p.1, p.2))
  | _ => []

/-- The per-item loop body of `buildKnowledgeText` for the items shape. -/
def renderItemLines (item : Json) : List String :=
  if !item.truthy then []
  else
    let title := jsOrJ (item.getField "title") (jsOrJ (item.getField "name") (.str "Item"))
    let sumL : List String :=
      match item.getField "summary" with
      | some s => if s.truthy then [s.toJsString] else []
      | none => []
    let bulL : List String :=
      match item.getField "bullets" with
      | some (.arr bs) => if bs.length == 0 then [] else bs.map (fun b => "- " ++ Json.toJsString b)
      | _ => []
    let linkL : List String :=
      match item.getField "links" with
      | some (.arr ls) =>
          if ls.length == 0 then [] else "References:" :: ls.map (fun l => "- " ++ Json.toJsString l)
      | _ => []
    ("## " ++ title.toJsString) :: (sumL ++ bulL ++ linkL ++ [""])

/-- The per-entry loop body of `buildKnowledgeText` for the sections shape. -/
def renderSectionLines (key : String) (value : Json) : List String :=
  match value with
  | .str s => ("## " ++ key) :: [jsTrim s, ""]
  | _ =>
    if value.truthy && value.typeofObject then
      let sumL : List String :=
        match value.getField "summary" with
        | some s => if s.truthy then [jsTrim s.toJsString] else []
        | none => []
      let bulL : List String :=
        match value.getField "bullets" with
        | some (.arr bs) => if bs.length == 0 then [] else bs.map (fun b => "- " ++ Json.toJsString b)
        | _ => []
      let linkL : List String :=
        match value.getField "links" with
        | some (.arr ls) =>
            if ls.length == 0 then [] else "References:" :: ls.map (fun l => "- " ++ Json.toJsString l)
        | _ => []
      ("## " ++ key) :: (sumL ++ bulL ++ linkL ++ [""])
    else
      ("## " ++ key) :: [value.toJsString, ""]

/-- `buildKnowledgeText` from prompts.js: empty for falsy or non-object input;
items shape when `.items` is an array; otherwise the key/value sections
rendering. -/
def buildKnowledgeText (knowledgeJson : Json) : String :=
  if !knowledgeJson.truthy || !knowledgeJson.typeofObject then ""
  else
    match knowledgeJson.getField "items" with
    | some (.arr items) =>
        jsTrim (String.intercalate "\n" (List.flatten (items.map renderItemLines)))
    | _ =>
        jsTrim (String.intercalate "\n"
          (List.flatten (knowledgeJson.jsEntries.map (fun kv => renderSectionLines kv.1 kv.2))))

/-- The mutable fields of `KnowledgeManager`. -/
structure KMState where
  lastMtimeMs : Int
  knowledgeJson : Option Json
  knowledgeText : String

/-- JavaScript truthiness of `this.knowledgeJson` (null before any load,
otherwise the installed JSON value). -/
def optionTruthy : Option Json → Bool
  | some j => j.truthy
  | none => false

/-- `KnowledgeManager.load` from server.js.  `mtimeMs` is the stat result and
`parsed` the `JSON.parse` result of the backing file; stat, read and parse
failures raise before this logic runs and leave the state untouched. -/
def KnowledgeManager.load (st : KMState) (mtimeMs : Int) (parsed : Json)
    (force : Bool) : KMState × Bool :=
  if !force && decide (mtimeMs ≤ st.lastMtimeMs) && optionTruthy st.knowledgeJson then
    (st, false)
  else
    (⟨mtimeMs, some parsed, buildKnowledgeText parsed⟩, true)

/-- `KnowledgeManager.getText`: `this.knowledgeText || ""`. -/
def KnowledgeManager.getText (st : KMState) : String :=
  if st.knowledgeText == "" then "" else st.knowledgeText

/-- One cache slot: `{ ts, value }`. -/
structure CacheEntry where
  ts : Int
  value : String

/-- The `ResponseCache` state: the `Map` is an association list in insertion
order (head oldest), as JavaScript `Map` iterates. -/
structure Cache where
  ttlMs : Int
  maxEntries : Nat
  map : List (String × CacheEntry)

/-- `Map.prototype.get`: first entry with the key (keys are unique in a
JavaScript `Map`). -/
def mapGet : List (String × CacheEntry) → String → Option CacheEntry
  | [], _ => none
  | p :: t, k => if p.1 == k then some p.2 else mapGet t k

/-- `Map.prototype.has`. -/
def mapHas : List (String × CacheEntry) → String → Bool
  | [], _ => false
  | p :: t, k => p.1 == k || mapHas t k

/-- Overwrite every slot holding the key, in place. -/
def mapReplace : List (String × CacheEntry) → String → CacheEntry →
    List (String × CacheEntry)
  | [], _, _ => []
  | p :: t, k, e =>
      if p.1 == k then (k, e) :: mapReplace t k e else p :: mapReplace t k e

/-- `Map.prototype.set`: update in place if the key is present (keeping its
position), otherwise append at the newest position. -/
def mapSet (m : List (String × CacheEntry)) (k : String) (e : CacheEntry) :
    List (String × CacheEntry) :=
  if mapHas m k then mapReplace m k e else m ++ [(k, e)]

/-- `Map.prototype.delete`. -/
def mapDelete : List (String × CacheEntry) → String → List (String × CacheEntry)
  | [], _ => []
  | p :: t, k => if p.1 == k then mapDelete t k else p :: mapDelete t k

/-- `ResponseCache.keyFor`: the sha256 hex digest is modelled by its preimage
`model::mode::lane::message` (`mode || ""` and `lane || ""` are the identity
on strings, an empty string stays an empty segment). -/
def ResponseCache.keyFor (model mode laneV message : String) : String :=
  model ++ "::" ++ mode ++ "::" ++ laneV ++ "::" ++ message

/-- `ResponseCache.get` at clock value `now` (`Date.now()`): miss on absence,
expiry eviction when the age exceeds the TTL, and a delete/re-insert recency
refresh on a hit.  Returns the new cache and the result (`null` ↦ `none`). -/
def ResponseCache.get (c : Cache) (now : Int) (k : String) :
    Cache × Option String :=
  match mapGet c.map k with
  | none => (c, none)
  | some entry =>
    if decide (c.ttlMs < now - entry.ts) then
      ({ c with map := mapDelete c.map k }, none)
    else
      ({ c with map := mapSet (mapDelete c.map k) k entry }, some entry.value)

/-- `ResponseCache.set` at clock value `now`: insert/overwrite with the
current timestamp; when the size exceeds `maxEntries`, delete the oldest key
(guarded by JavaScript truthiness of the key string). -/
def ResponseCache.set (c : Cache) (now : Int) (k : String) (v : String) : Cache :=
  let m1 := mapSet c.map k ⟨now, v⟩
  if decide (c.maxEntries < m1.length) then
    match m1.head? with
    | some p => if p.1 == "" then { c with map := m1 } else { c with map := mapDelete m1 p.1 }
    | none => { c with map := m1 }
  else
    { c with map := m1 }

/-- `ResponseCache.clear`. -/
def ResponseCache.clear (c : Cache) : Cache :=
  { c with map := [] }

/-- Events written to the SSE channel by the streaming path of `/chat`
(each `res.write` of a data frame, by its payload kind). -/
inductive SSEEvent where
  | delta (text : String)
  | done
  | fail
deriving DecidableEq, Repr

/-- Terminal events: `{done: true}` and `{error, done: true}`. -/
def SSEEvent.isTerminal : SSEEvent → Bool
  | .delta _ => false
  | .done => true
  | .fail => true

/-- In-flight streaming state: accumulated `fullText` and the events written
so far. -/
structure StreamState where
  fullText : String
  events : List SSEEvent

/-- The `response.output_text.delta` handler: empty deltas are skipped
(`if (!delta) return;`), otherwise the delta is accumulated and forwarded. -/
def onDelta (st : StreamState) (d : String) : StreamState :=
  if d == "" then st
  else { fullText := st.fullText ++ d, events := st.events ++ [SSEEvent.delta d] }

/-- A provider stream that completes without error, observed as the sequence
of its text deltas followed by `response.completed`: the handler forwards the
deltas, emits the terminal done event, and retroactively stores the
accumulated text in the cache under the precomputed key. -/
def runStreamReq (deltas : List String) (c : Cache) (now : Int) (key : String) :
    List SSEEvent × Cache :=
  let st := deltas.foldl onDelta ⟨"", []⟩
  (st.events ++ [SSEEvent.done], ResponseCache.set c now key st.fullText)

/-- Concatenation of the deltas of an emitted event sequence. -/
def deltaConcat : List SSEEvent → String
  | [] => ""
  | SSEEvent.delta d :: rest => d ++ deltaConcat rest
  | _ :: rest => deltaConcat rest

/-- Concatenation of a list of strings (the provider's deltas). -/
def strJoin : List String → String
  | [] => ""
  | d :: rest => d ++ strJoin rest

/-- A provider failure as observed by the `/chat` error handler:
`err?.status` and `err?.response?.status` (absent ↦ `none`), plus the
(uninspected) message text. -/
structure ProviderError where
  status : Option Int
  responseStatus : Option Int
  message : String

/-- JavaScript `a || b` on optional numbers (0 and undefined are falsy). -/
def jsOrNum (a b : Option Int) : Option Int :=
  match a with
  | some n => if n == 0 then b else some n
  | none => b

/-- The effective status of the error handler:
`err?.status || err?.response?.status`. -/
def effectiveStatus (e : ProviderError) : Option Int :=
  jsOrNum e.status e.responseStatus

/-- The non-streaming `/chat` error mapping: the HTTP status and client-facing
message chosen by the catch block. -/
def chatErrorResponse (e : ProviderError) : Int × String :=
  if effectiveStatus e == some 401 then
    (500, "OpenAI authentication error.")
  else if effectiveStatus e == some 429 then
    (429, "OpenAI rate limit exceeded. Try again later.")
  else if effectiveStatus e == some 400 then
    (500, "OpenAI request was rejected (400). Check model/input formatting.")
  else
    (500, "Server error.")

theorem lane_eq_local_iff (m : String) :
    lane m = "local" ↔ isLocalLifeQuery m = true := by
  cases hq : isLocalLifeQuery m <;> simp [lane, hq]

theorem isLocalLifeQuery_eq_true_iff (m : String) :
    isLocalLifeQuery m = true ↔
      (governedHits.any (fun k => jsIncludes (jsToLower m) k) = false ∧
       localHits.any (fun k => jsIncludes (jsToLower m) k) = true) := by
  cases hg : governedHits.any (fun k => jsIncludes (jsToLower m) k) <;>
    simp [isLocalLifeQuery, hg]

/-- C1: the lane classifier returns `scholar` whenever a governed-topic
keyword is a case-insensitive substring of the message, and the derived lane
is `local` exactly when the lower-cased message contains no governed-topic
keyword and at least one local-life keyword. -/
theorem C1_lane_classification (m : String) :
    ((∃ k ∈ governedHits, SubstrOf k (jsToLower m)) → lane m = "scholar")
  ∧ (lane m = "local" ↔
      ((∀ k ∈ governedHits, ¬ SubstrOf k (jsToLower m)) ∧
       ∃ k ∈ localHits, SubstrOf k (jsToLower m))) := by
  have hg : (governedHits.any (fun k => jsIncludes (jsToLower m) k) = true) ↔
      ∃ k ∈ governedHits, SubstrOf k (jsToLower m) := by
    simp only [List.any_eq_true, jsIncludes_iff]
  have hl : (localHits.any (fun k => jsIncludes (jsToLower m) k) = true) ↔
      ∃ k ∈ localHits, SubstrOf k (jsToLower m) := by
    simp only [List.any_eq_true, jsIncludes_iff]
  constructor
  · intro hgov
    have hga : governedHits.any (fun k => jsIncludes (jsToLower m) k) = true :=
      hg.mpr hgov
    simp [lane, isLocalLifeQuery, hga]
  · rw [lane_eq_local_iff, isLocalLifeQuery_eq_true_iff]
    rw [← hl]
    constructor
    · rintro ⟨hgf, hlt⟩
      refine ⟨?_, hlt⟩
      intro k hk hsub
      have : governedHits.any (fun k => jsIncludes (jsToLower m) k) = true :=
        hg.mpr ⟨k, hk, hsub⟩
      rw [this] at hgf
      simp at hgf
    · rintro ⟨hnog, hlt⟩
      refine ⟨?_, hlt⟩
      cases hga : governedHits.any (fun k => jsIncludes (jsToLower m) k) with
      | false => rfl
      | true =>
        obtain ⟨k, hk, hsub⟩ := hg.mp hga
        exact absurd hsub (hnog k hk)

/-- Witness for C1 at the spec's own example: a message containing both a
local-life keyword (`pizza`) and a governed-topic keyword (`visa`) routes to
`scholar`. -/
theorem C1_lane_classification_witness :
    lane "best pizza near the embassy for my visa" = "scholar" :=
  (C1_lane_classification "best pizza near the embassy for my visa").1
    ⟨"visa", by decide,
      ⟨"best pizza near the embassy for my ".data, [], by decide⟩⟩

/-- C3: the assembled system prompt is exactly the local policy for lane
`local` (knowledge never injected), and for lane `scholar` the trimmed
scholar policy followed by the `MODE:` marker and then either the labeled
knowledge block (store text non-empty) or the explicit not-loaded marker
(store text empty); the knowledge section is never silently empty. -/
theorem C3_system_prompt (message mode kb : String) :
    (lane message = "local" → systemText message mode kb = SYSTEM_POLICY_LOCAL)
  ∧ (lane message = "scholar" →
      (systemText message mode kb =
        SYSTEM_POLICY_SCHOLAR ++ "\n\nMODE: " ++ mode ++ "\n" ++
          (if kb = "" then "\nKNOWLEDGE: (not loaded)\n"
           else "\nKNOWLEDGE (approved sources):\n" ++ kb ++ "\n"))
      ∧ (kb = "" → SubstrOf "\nKNOWLEDGE: (not loaded)\n" (systemText message mode kb))
      ∧ (kb ≠ "" → SubstrOf ("\nKNOWLEDGE (approved sources):\n" ++ kb ++ "\n")
            (systemText message mode kb))) := by
  have htrimS : jsTrim SYSTEM_POLICY_SCHOLAR = SYSTEM_POLICY_SCHOLAR := by decide
  have htrimL : jsTrim SYSTEM_POLICY_LOCAL = SYSTEM_POLICY_LOCAL := by decide
  constructor
  · intro hloc
    simp [systemText, hloc, htrimL]
  · intro hsch
    have hcond : (lane message == "local") = false := by
      rw [hsch]; decide
    rcases eq_or_ne kb "" with hkb | hkb
    · subst hkb
      refine ⟨?_, ?_, ?_⟩
      · simp [systemText, hcond, htrimS]
      · intro _
        refine ⟨(SYSTEM_POLICY_SCHOLAR ++ "\n\nMODE: " ++ mode ++ "\n").data, [], ?_⟩
        simp [systemText, hcond, htrimS, String.data_append, List.append_assoc]
      · intro hne
        exact absurd rfl hne
    · have hkbb : (kb == "") = false := by
        simpa using hkb
      refine ⟨?_, ?_, ?_⟩
      · simp [systemText, hcond, htrimS, hkbb, if_neg hkb]
      · intro h0
        exact absurd h0 hkb
      · intro _
        refine ⟨(SYSTEM_POLICY_SCHOLAR ++ "\n\nMODE: " ++ mode ++ "\n").data, [], ?_⟩
        simp [systemText, hcond, htrimS, hkbb, String.data_append, List.append_assoc]

/-- Witness for C3: a keyword-free message routes to `scholar`, and with an
empty store text the assembled prompt is the scholar policy, the MODE marker
and the explicit not-loaded marker. -/
theorem C3_system_prompt_witness :
    systemText "hello" "official" "" =
      SYSTEM_POLICY_SCHOLAR ++ "\n\nMODE: " ++ "official" ++ "\n" ++
        "\nKNOWLEDGE: (not loaded)\n" := by
  have h := ((C3_system_prompt "hello" "official" "").2 (by decide)).1
  simpa using h

/-- C7: the client-facing result of a failed non-streaming provider call is
determined solely by the provider status: 401 maps to a generic 500
authentication error, 429 passes through as 429 with a retry-later message,
400 maps to a generic 500 rejection message, and anything else maps to a
generic 500 server error; none of the messages depend on the error text. -/
theorem C7_error_mapping (e : ProviderError) :
    (effectiveStatus e = some 401 →
        chatErrorResponse e = (500, "OpenAI authentication error."))
  ∧ (effectiveStatus e = some 429 →
        chatErrorResponse e = (429, "OpenAI rate limit exceeded. Try again later."))
  ∧ (effectiveStatus e = some 400 →
        chatErrorResponse e = (500, "OpenAI request was rejected (400). Check model/input formatting."))
  ∧ (effectiveStatus e ≠ some 401 → effectiveStatus e ≠ some 429 →
      effectiveStatus e ≠ some 400 →
        chatErrorResponse e = (500, "Server error."))
  ∧ (∀ e2 : ProviderError, effectiveStatus e = effectiveStatus e2 →
        chatErrorResponse e = chatErrorResponse e2) := by
  refine ⟨?_, ?_, ?_, ?_, ?_⟩
  · intro h; simp [chatErrorResponse, h]
  · intro h; simp [chatErrorResponse, h]
  · intro h; simp [chatErrorResponse, h]
  · intro h1 h2 h3
    simp [chatErrorResponse, h1, h2, h3]
  · intro e2 h
    simp [chatErrorResponse, h]

/-- Witness for C7: a rate-limit failure with a secret-bearing message text
maps to the fixed 429 retry-later response. -/
theorem C7_error_mapping_witness :
    chatErrorResponse ⟨some 429, none, "rate limited for key sk-secret"⟩ =
      (429, "OpenAI rate limit exceeded. Try again later.") :=
  (C7_error_mapping ⟨some 429, none, "rate limited for key sk-secret"⟩).2.1 (by decide)


theorem mapGet_eq_none_iff (k : String) :
    ∀ m : List (String × CacheEntry), mapGet m k = none ↔ ∀ p ∈ m, p.1 ≠ k := by
  intro m
  induction m with
  | nil => simp [mapGet]
  | cons p t ih =>
    cases hp : (p.1 == k) with
    | true =>
      simp only [mapGet, hp, if_true]
      constructor
      · intro h; exact absurd h (by simp)
      · intro h
        exact absurd (by simpa using hp) (h p (by simp))
    | false =>
      simp only [mapGet, hp, Bool.false_eq_true, if_false, ih]
      constructor
      · intro h q hq
        rcases List.mem_cons.mp hq with hq0 | hq1
        · subst hq0; simpa using hp
        · exact h q hq1
      · intro h q hq
        exact h q (by simp [hq])

theorem mapGet_mapReplace_self (k : String) (e : CacheEntry) :
    ∀ m : List (String × CacheEntry), mapHas m k = true →
      mapGet (mapReplace m k e) k = some e := by
  intro m
  induction m with
  | nil => simp [mapHas]
  | cons p t ih =>
    intro hhas
    cases hp : (p.1 == k) with
    | true => simp [mapReplace, hp, mapGet]
    | false =>
      have ht : mapHas t k = true := by
        simpa [mapHas, hp] using hhas
      simp [mapReplace, hp, mapGet, ih ht]

theorem mapGet_append_single (k : String) (e : CacheEntry) :
    ∀ m : List (String × CacheEntry), (∀ p ∈ m, p.1 ≠ k) →
      mapGet (m ++ [(k, e)]) k = some e := by
  intro m
  induction m with
  | nil => simp [mapGet]
  | cons p t ih =>
    intro h
    have hp : (p.1 == k) = false := by simpa using h p (by simp)
    simp only [List.cons_append, mapGet, hp, Bool.false_eq_true, if_false]
    exact ih (fun q hq => h q (by simp [hq]))

theorem mapHas_eq_false_iff (k : String) :
    ∀ m : List (String × CacheEntry), mapHas m k = false ↔ ∀ p ∈ m, p.1 ≠ k := by
  intro m
  induction m with
  | nil => simp [mapHas]
  | cons p t ih =>
    simp only [mapHas, Bool.or_eq_false_iff, ih]
    constructor
    · rintro ⟨h1, h2⟩ q hq
      rcases List.mem_cons.mp hq with hq0 | hq1
      · subst hq0; simpa using h1
      · exact h2 q hq1
    · intro h
      exact ⟨by simpa using h p (by simp), fun q hq => h q (by simp [hq])⟩

theorem mapGet_mapSet_self (m : List (String × CacheEntry)) (k : String)
    (e : CacheEntry) : mapGet (mapSet m k e) k = some e := by
  cases h : mapHas m k with
  | true =>
    simp only [mapSet, h, if_true]
    exact mapGet_mapReplace_self k e m h
  | false =>
    simp only [mapSet, h, Bool.false_eq_true, if_false]
    exact mapGet_append_single k e m ((mapHas_eq_false_iff k m).mp h)

theorem mapGet_delete_self (k : String) :
    ∀ m : List (String × CacheEntry), mapGet (mapDelete m k) k = none := by
  intro m
  induction m with
  | nil => rfl
  | cons p t ih =>
    cases hp : (p.1 == k) with
    | true => simpa [mapDelete, hp] using ih
    | false => simpa [mapDelete, hp, mapGet] using ih

theorem mapGet_delete_ne (k k0 : String) (h : k ≠ k0) :
    ∀ m : List (String × CacheEntry), mapGet (mapDelete m k0) k = mapGet m k := by
  intro m
  induction m with
  | nil => rfl
  | cons p t ih =>
    cases hp : (p.1 == k0) with
    | true =>
      have hpk : (p.1 == k) = false := by
        have : p.1 = k0 := by simpa using hp
        subst this
        simpa using fun hc => h hc.symm
      simp [mapDelete, hp, mapGet, hpk, ih]
    | false =>
      simp only [mapDelete, hp, Bool.false_eq_true, if_false, mapGet]
      cases hpk : (p.1 == k) with
      | true => simp
      | false => simpa using ih

theorem mapReplace_length (k : String) (e : CacheEntry) :
    ∀ m : List (String × CacheEntry), (mapReplace m k e).length = m.length := by
  intro m
  induction m with
  | nil => rfl
  | cons p t ih =>
    cases hp : (p.1 == k) <;> simp [mapReplace, hp, ih]

theorem set_ttl_and_max (c : Cache) (now : Int) (k v : String) :
    (ResponseCache.set c now k v).ttlMs = c.ttlMs ∧
    (ResponseCache.set c now k v).maxEntries = c.maxEntries := by
  simp only [ResponseCache.set]
  split
  · split
    · split
      · exact ⟨rfl, rfl⟩
      · exact ⟨rfl, rfl⟩
    · exact ⟨rfl, rfl⟩
  · exact ⟨rfl, rfl⟩

/-- After `ResponseCache.set` under sane capacity, the written key holds the
fresh entry: eviction can only remove the oldest key, never the key just
written. -/
theorem set_installs_entry (c : Cache) (now : Int) (k v : String)
    (hcap : 1 ≤ c.maxEntries) (hsize : c.map.length ≤ c.maxEntries) :
    mapGet (ResponseCache.set c now k v).map k = some ⟨now, v⟩ := by
  cases h : mapHas c.map k with
  | true =>
    have hlen : (mapSet c.map k ⟨now, v⟩).length = c.map.length := by
      simp [mapSet, h, mapReplace_length]
    have hno : (decide (c.maxEntries < (mapSet c.map k ⟨now, v⟩).length)) = false := by
      rw [hlen]
      simp only [decide_eq_false_iff_not, not_lt]
      exact hsize
    simp only [ResponseCache.set, hno, Bool.false_eq_true, if_false]
    exact mapGet_mapSet_self c.map k ⟨now, v⟩
  | false =>
    have hfresh : ∀ p ∈ c.map, p.1 ≠ k := (mapHas_eq_false_iff k c.map).mp h
    have hset : mapSet c.map k ⟨now, v⟩ = c.map ++ [(k, ⟨now, v⟩)] := by
      simp [mapSet, h]
    have hget1 : mapGet (mapSet c.map k ⟨now, v⟩) k = some ⟨now, v⟩ :=
      mapGet_mapSet_self c.map k ⟨now, v⟩
    cases hov : decide (c.maxEntries < (mapSet c.map k ⟨now, v⟩).length) with
    | false =>
      simp only [ResponseCache.set, hov, Bool.false_eq_true, if_false]
      exact hget1
    | true =>
      have hov2 : c.maxEntries < (mapSet c.map k ⟨now, v⟩).length := of_decide_eq_true hov
      rw [hset] at hov2
      simp only [List.length_append, List.length_cons, List.length_nil] at hov2
      have hmne : c.map ≠ [] := by
        intro h0
        rw [h0] at hov2
        simp at hov2
        omega
      obtain ⟨p, t, hpt⟩ := List.exists_cons_of_ne_nil hmne
      have hhead : (mapSet c.map k ⟨now, v⟩).head? = some p := by
        rw [hset, hpt]
        rfl
      simp only [ResponseCache.set, hov, if_true, hhead]
      have hpk : p.1 ≠ k := hfresh p (by rw [hpt]; simp)
      cases hpe : (p.1 == "") with
      | true =>
        simp only [if_true]
        exact hget1
      | false =>
        simp only [Bool.false_eq_true, if_false]
        rw [mapGet_delete_ne k p.1 (fun hc => hpk hc.symm)]
        exact hget1

/-- C5: a `set` followed immediately by a `get` of the same key returns the
value just stored, and once the entry's age exceeds the TTL the `get` returns
absent and evicts the entry from the store. -/
theorem C5_cache_roundtrip (c : Cache) (t tq : Int) (k v : String)
    (httl : 0 ≤ c.ttlMs) (hcap : 1 ≤ c.maxEntries)
    (hsize : c.map.length ≤ c.maxEntries) :
    ((ResponseCache.get (ResponseCache.set c t k v) t k).2 = some v)
  ∧ (c.ttlMs < tq - t →
      ((ResponseCache.get (ResponseCache.set c t k v) tq k).2 = none
        ∧ mapGet (ResponseCache.get (ResponseCache.set c t k v) tq k).1.map k = none)) := by
  have hmem : mapGet (ResponseCache.set c t k v).map k = some ⟨t, v⟩ :=
    set_installs_entry c t k v hcap hsize
  have httlc : (ResponseCache.set c t k v).ttlMs = c.ttlMs :=
    (set_ttl_and_max c t k v).1
  constructor
  · have hnot : ¬ ((ResponseCache.set c t k v).ttlMs < 0) := by
      rw [httlc]; omega
    simp [ResponseCache.get, hmem, hnot]
  · intro hexp
    have hexp2 : (ResponseCache.set c t k v).ttlMs < tq - t := by
      rw [httlc]; exact hexp
    constructor
    · simp [ResponseCache.get, hmem, hexp2]
    · have h2 := mapGet_delete_self k (ResponseCache.set c t k v).map
      simp [ResponseCache.get, hmem, hexp2, h2]

/-- Witness for C5 on a concrete cache (TTL 1000 ms, capacity 2): the
round-trip returns the stored value and a read 2000 ms later is absent and
evicts. -/
theorem C5_cache_roundtrip_witness :
    ((ResponseCache.get (ResponseCache.set ⟨1000, 2, []⟩ 0 "k1" "hi") 0 "k1").2 = some "hi")
  ∧ ((ResponseCache.get (ResponseCache.set ⟨1000, 2, []⟩ 0 "k1" "hi") 2000 "k1").2 = none
      ∧ mapGet (ResponseCache.get (ResponseCache.set ⟨1000, 2, []⟩ 0 "k1" "hi") 2000 "k1").1.map "k1" = none) := by
  have h := C5_cache_roundtrip ⟨1000, 2, []⟩ 0 2000 "k1" "hi"
    (by decide) (by decide) (by decide)
  exact ⟨h.1, h.2 (by decide)⟩

/-- Repeated reads of key `k` at the given clock values, keeping only the
evolving cache state. -/
def applyGets (c : Cache) (k : String) : List Int → Cache
  | [] => c
  | tm :: rest => applyGets (ResponseCache.get c tm k).1 k rest

theorem get_preserves_entry (c : Cache) (now : Int) (k : String) (e : CacheEntry)
    (h : mapGet c.map k = some e) :
    mapGet (ResponseCache.get c now k).1.map k = some e ∨
    mapGet (ResponseCache.get c now k).1.map k = none := by
  by_cases hexp : c.ttlMs < now - e.ts
  · right
    simp [ResponseCache.get, h, hexp, mapGet_delete_self]
  · left
    simp [ResponseCache.get, h, hexp, mapGet_mapSet_self]

theorem get_ttl (c : Cache) (now : Int) (k : String) :
    (ResponseCache.get c now k).1.ttlMs = c.ttlMs := by
  simp only [ResponseCache.get]
  cases mapGet c.map k with
  | none => rfl
  | some e =>
    by_cases hexp : c.ttlMs < now - e.ts <;> simp [hexp]

theorem get_absent (c : Cache) (now : Int) (k : String)
    (h : mapGet c.map k = none) : ResponseCache.get c now k = (c, none) := by
  simp [ResponseCache.get, h]

theorem applyGets_absent (k : String) :
    ∀ (times : List Int) (c : Cache), mapGet c.map k = none →
      mapGet (applyGets c k times).map k = none := by
  intro times
  induction times with
  | nil =>
    intro c h
    exact h
  | cons tm rest ih =>
    intro c h
    simp only [applyGets, get_absent c tm k h]
    exact ih c h

theorem applyGets_ttl (k : String) :
    ∀ (times : List Int) (c : Cache), (applyGets c k times).ttlMs = c.ttlMs := by
  intro times
  induction times with
  | nil =>
    intro c
    rfl
  | cons tm rest ih =>
    intro c
    simp only [applyGets]
    rw [ih, get_ttl]

theorem applyGets_entry (k : String) (e : CacheEntry) :
    ∀ (times : List Int) (c : Cache), mapGet c.map k = some e →
      mapGet (applyGets c k times).map k = some e ∨
      mapGet (applyGets c k times).map k = none := by
  intro times
  induction times with
  | nil =>
    intro c h
    exact Or.inl h
  | cons tm rest ih =>
    intro c h
    simp only [applyGets]
    rcases get_preserves_entry c tm k e h with h1 | h1
    · exact ih (ResponseCache.get c tm k).1 h1
    · exact Or.inr (applyGets_absent k rest _ h1)

theorem mapHas_delete_self (k : String) (m : List (String × CacheEntry)) :
    mapHas (mapDelete m k) k = false :=
  (mapHas_eq_false_iff k (mapDelete m k)).mpr
    ((mapGet_eq_none_iff k (mapDelete m k)).mp (mapGet_delete_self k m))

/-- C9: a read hit re-inserts the entry at the most-recently-used position
with its stored timestamp unchanged, so an entry set at time `t` is absent at
any time past `t + TTL` no matter how many successful hits happened in
between. -/
theorem C9_hit_preserves_timestamp (c : Cache) (t tq : Int) (k v : String)
    (times : List Int) (hcap : 1 ≤ c.maxEntries)
    (hsize : c.map.length ≤ c.maxEntries) :
    (∀ (c2 : Cache) (now : Int) (e : CacheEntry), mapGet c2.map k = some e →
        ¬ (c2.ttlMs < now - e.ts) →
        (ResponseCache.get c2 now k).1.map = mapDelete c2.map k ++ [(k, e)])
  ∧ (c.ttlMs < tq - t →
      (ResponseCache.get
        (applyGets (ResponseCache.set c t k v) k times) tq k).2 = none) := by
  constructor
  · intro c2 now e he hnot
    simp [ResponseCache.get, he, hnot, mapSet, mapHas_delete_self]
  · intro hexp
    have h0 : mapGet (ResponseCache.set c t k v).map k = some ⟨t, v⟩ :=
      set_installs_entry c t k v hcap hsize
    have httl2 : (applyGets (ResponseCache.set c t k v) k times).ttlMs = c.ttlMs := by
      rw [applyGets_ttl, (set_ttl_and_max c t k v).1]
    rcases applyGets_entry k ⟨t, v⟩ times (ResponseCache.set c t k v) h0 with h1 | h1
    · simp [ResponseCache.get, h1, httl2, hexp]
    · simp [ResponseCache.get, h1]

/-- Witness for C9: with TTL 1000 ms, a key set at time 0 and read (hit) at
times 500 and 900 is nevertheless absent at time 1500. -/
theorem C9_hit_preserves_timestamp_witness :
    (ResponseCache.get
      (applyGets (ResponseCache.set ⟨1000, 2, []⟩ 0 "k1" "hi") "k1" [500, 900])
      1500 "k1").2 = none :=
  (C9_hit_preserves_timestamp ⟨1000, 2, []⟩ 0 1500 "k1" "hi" [500, 900]
    (by decide) (by decide)).2 (by decide)

/-- The keys of the cache map in insertion order. -/
def keysOf (m : List (String × CacheEntry)) : List String := m.map Prod.fst

/-- Reachable key sets: pairwise distinct (a JavaScript `Map` invariant) and
non-empty (every key the server uses is a sha256 hex digest). -/
def GoodKeys (m : List (String × CacheEntry)) : Prop :=
  (keysOf m).Nodup ∧ ∀ k ∈ keysOf m, k ≠ ""

theorem keysOf_mapReplace (k : String) (e : CacheEntry) :
    ∀ m : List (String × CacheEntry), keysOf (mapReplace m k e) = keysOf m := by
  intro m
  induction m with
  | nil => rfl
  | cons p t ih =>
    cases hp : (p.1 == k) with
    | true =>
      have hpk : p.1 = k := by simpa using hp
      simp only [mapReplace, hp, if_true, keysOf, List.map_cons] at ih ⊢
      rw [ih, hpk]
    | false =>
      simp only [mapReplace, hp, Bool.false_eq_true, if_false, keysOf,
        List.map_cons] at ih ⊢
      rw [ih]

theorem mapHas_iff_mem_keys (k : String) (m : List (String × CacheEntry)) :
    mapHas m k = false ↔ k ∉ keysOf m := by
  rw [mapHas_eq_false_iff]
  simp only [keysOf, List.mem_map, not_exists]
  aesop

theorem mapDelete_absent (k : String) :
    ∀ m : List (String × CacheEntry), (∀ p ∈ m, p.1 ≠ k) → mapDelete m k = m := by
  intro m
  induction m with
  | nil => intro _; rfl
  | cons p t ih =>
    intro h
    have hp : (p.1 == k) = false := by simpa using h p (by simp)
    simp only [mapDelete, hp, Bool.false_eq_true, if_false]
    rw [ih (fun q hq => h q (by simp [hq]))]

/-- `set` with a key already present and the size invariant holding: in-place
overwrite, no eviction. -/
theorem set_present (c : Cache) (now : Int) (k v : String)
    (hhas : mapHas c.map k = true) (hsize : c.map.length ≤ c.maxEntries) :
    ResponseCache.set c now k v = { c with map := mapReplace c.map k ⟨now, v⟩ } := by
  have hset : mapSet c.map k ⟨now, v⟩ = mapReplace c.map k ⟨now, v⟩ := by
    simp [mapSet, hhas]
  have hno : ¬ (c.maxEntries < (mapReplace c.map k ⟨now, v⟩).length) := by
    rw [mapReplace_length]
    omega
  simp [ResponseCache.set, hset, hno]

/-- `set` with a fresh key and room to spare: append, no eviction. -/
theorem set_fresh_no_evict (c : Cache) (now : Int) (k v : String)
    (hfresh : mapHas c.map k = false)
    (hroom : c.map.length + 1 ≤ c.maxEntries) :
    ResponseCache.set c now k v = { c with map := c.map ++ [(k, ⟨now, v⟩)] } := by
  have hset : mapSet c.map k ⟨now, v⟩ = c.map ++ [(k, ⟨now, v⟩)] := by
    simp [mapSet, hfresh]
  have hno : ¬ (c.maxEntries < c.map.length + 1) := by
    omega
  simp [ResponseCache.set, hset, hno]

/-- `set` with a fresh key on a full non-empty cache with sane keys: append,
then evict exactly the oldest entry. -/
theorem set_fresh_at_capacity (c : Cache) (now : Int) (k v : String)
    (hg : GoodKeys c.map) (hfull : c.map.length = c.maxEntries)
    (hfresh : mapHas c.map k = false) (hne : c.map ≠ []) :
    (ResponseCache.set c now k v).map = c.map.drop 1 ++ [(k, ⟨now, v⟩)] := by
  obtain ⟨p, t, hpt⟩ := List.exists_cons_of_ne_nil hne
  have hset : mapSet c.map k ⟨now, v⟩ = c.map ++ [(k, ⟨now, v⟩)] := by
    simp [mapSet, hfresh]
  have hov : decide (c.maxEntries < (mapSet c.map k ⟨now, v⟩).length) = true := by
    rw [hset]
    simp only [List.length_append, List.length_cons, List.length_nil,
      decide_eq_true_eq]
    omega
  have hhead : (mapSet c.map k ⟨now, v⟩).head? = some p := by
    rw [hset, hpt]
    rfl
  have hpmem : p.1 ∈ keysOf c.map := by
    rw [hpt, keysOf, List.map_cons]
    simp
  have hpne : p.1 ≠ "" := hg.2 p.1 hpmem
  have hpb : (p.1 == "") = false := by simpa using hpne
  simp only [ResponseCache.set, hov, if_true, hhead, hpb, Bool.false_eq_true,
    if_false]
  rw [hset, hpt]
  have hkp : (p.1 == p.1) = true := by simp
  simp only [List.cons_append, mapDelete, hkp, if_true, List.drop_succ_cons,
    List.drop_zero]
  refine mapDelete_absent p.1 (t ++ [(k, ⟨now, v⟩)]) ?_
  intro q hq
  rcases List.mem_append.mp hq with hq1 | hq2
  · have hnodup := hg.1
    rw [hpt, keysOf, List.map_cons, List.nodup_cons] at hnodup
    intro hc
    exact hnodup.1 (hc ▸ (List.mem_map.mpr ⟨q, hq1, rfl⟩))
  · have hqe : q = (k, ⟨now, v⟩) := by simpa using hq2
    subst hqe
    intro hc
    rw [mapHas_iff_mem_keys] at hfresh
    apply hfresh
    have hkp1 : k = p.1 := hc
    rw [hkp1]
    exact hpmem

theorem goodKeys_append_fresh (m : List (String × CacheEntry)) (k : String)
    (e : CacheEntry) (hg : GoodKeys m) (hk : k ≠ "") (hfresh : k ∉ keysOf m) :
    GoodKeys (m ++ [(k, e)]) := by
  have hkeys : keysOf (m ++ [(k, e)]) = keysOf m ++ [k] := by
    simp [keysOf]
  constructor
  · rw [hkeys]
    refine List.Nodup.append hg.1 (List.nodup_singleton k) ?_
    intro a ha hb
    rw [List.mem_singleton] at hb
    subst hb
    exact hfresh ha
  · rw [hkeys]
    intro k2 hk2
    rcases List.mem_append.mp hk2 with h1 | h2
    · exact hg.2 k2 h1
    · rw [List.mem_singleton] at h2
      subst h2
      exact hk

theorem keysOf_drop (m : List (String × CacheEntry)) :
    keysOf (m.drop 1) = (keysOf m).drop 1 := by
  simp [keysOf, List.map_drop]

theorem goodKeys_drop (m : List (String × CacheEntry)) (hg : GoodKeys m) :
    GoodKeys (m.drop 1) := by
  constructor
  · rw [keysOf_drop]
    exact hg.1.sublist (List.drop_sublist 1 (keysOf m))
  · intro k2 hk2
    rw [keysOf_drop] at hk2
    exact hg.2 k2 (List.mem_of_mem_drop hk2)

theorem set_empty_max_zero (c : Cache) (now : Int) (k v : String)
    (hk : k ≠ "") (hm : c.map = []) (hmax : c.maxEntries = 0) :
    (ResponseCache.set c now k v).map = [] := by
  have hkb : (k == "") = false := by simpa using hk
  simp [ResponseCache.set, mapSet, mapHas, mapDelete, hm, hmax, hkb]

/-- `set` keeps the size at or below the capacity and preserves the key
sanity invariant. -/
theorem set_size_invariant (c : Cache) (now : Int) (k v : String)
    (hg : GoodKeys c.map) (hk : k ≠ "") (hsize : c.map.length ≤ c.maxEntries) :
    (ResponseCache.set c now k v).map.length ≤ c.maxEntries ∧
    GoodKeys (ResponseCache.set c now k v).map := by
  cases hhas : mapHas c.map k with
  | true =>
    rw [set_present c now k v hhas hsize]
    refine ⟨?_, ?_, ?_⟩
    · simpa [mapReplace_length] using hsize
    · rw [keysOf_mapReplace]
      exact hg.1
    · rw [keysOf_mapReplace]
      exact hg.2
  | false =>
    have hfreshk : k ∉ keysOf c.map := (mapHas_iff_mem_keys k c.map).mp hhas
    by_cases hroom : c.map.length + 1 ≤ c.maxEntries
    · rw [set_fresh_no_evict c now k v hhas hroom]
      refine ⟨?_, goodKeys_append_fresh c.map k ⟨now, v⟩ hg hk hfreshk⟩
      simpa using hroom
    · have hfull : c.map.length = c.maxEntries := by omega
      by_cases hne : c.map = []
      · have hmax0 : c.maxEntries = 0 := by
          rw [← hfull, hne]
          rfl
        rw [set_empty_max_zero c now k v hk hne hmax0]
        exact ⟨by simp, List.nodup_nil, by simp [keysOf]⟩
      · rw [set_fresh_at_capacity c now k v hg hfull hhas hne]
        have hlen1 : 1 ≤ c.map.length := by
          cases hcm : c.map with
          | nil => exact absurd hcm hne
          | cons p t => simp [hcm]
        constructor
        · simp only [List.length_append, List.length_drop, List.length_cons,
            List.length_nil]
          omega
        · refine goodKeys_append_fresh (c.map.drop 1) k ⟨now, v⟩
            (goodKeys_drop c.map hg) hk ?_
          rw [keysOf_drop]
          intro hc
          exact hfreshk (List.mem_of_mem_drop hc)

/-- Insert a sequence of keys one `set` at a time (all with the same value and
clock, which is all the capacity claim needs). -/
def insertAll (now : Int) (v : String) : Cache → List String → Cache
  | c, [] => c
  | c, k2 :: rest => insertAll now v (ResponseCache.set c now k2 v) rest

theorem insertAll_no_evict (now : Int) (v : String) :
    ∀ (ks : List String) (c : Cache),
      (∀ k2 ∈ ks, k2 ∉ keysOf c.map) → ks.Nodup →
      c.map.length + ks.length ≤ c.maxEntries →
      insertAll now v c ks =
        { c with map := c.map ++ ks.map (fun k2 => (k2, ⟨now, v⟩)) } := by
  intro ks
  induction ks with
  | nil =>
    intro c _ _ _
    simp [insertAll]
  | cons k2 rest ih =>
    intro c hks hnodup hlen
    have hfresh : mapHas c.map k2 = false :=
      (mapHas_iff_mem_keys k2 c.map).mpr (hks k2 (by simp))
    have hroom : c.map.length + 1 ≤ c.maxEntries := by
      simp only [List.length_cons] at hlen
      omega
    have hfresh2 : ∀ k3 ∈ rest,
        k3 ∉ keysOf (c.map ++ [(k2, (⟨now, v⟩ : CacheEntry))]) := by
      intro k3 hk3
      have h1 : k3 ∉ keysOf c.map := hks k3 (by simp [hk3])
      have h2 : k3 ≠ k2 := by
        intro hc
        subst hc
        exact (List.nodup_cons.mp hnodup).1 hk3
      simp only [keysOf, List.map_append, List.map_cons, List.map_nil,
        List.mem_append, List.mem_singleton]
      rintro (hc | hc)
      · exact h1 hc
      · exact h2 hc
    have hnodup2 : rest.Nodup := (List.nodup_cons.mp hnodup).2
    have hlen2 :
        ({ c with map := c.map ++ [(k2, (⟨now, v⟩ : CacheEntry))] } : Cache).map.length
          + rest.length ≤
        ({ c with map := c.map ++ [(k2, (⟨now, v⟩ : CacheEntry))] } : Cache).maxEntries := by
      simp only [List.length_append, List.length_cons, List.length_nil]
      simp only [List.length_cons] at hlen
      omega
    simp only [insertAll]
    rw [set_fresh_no_evict c now k2 v hfresh hroom]
    rw [ih { c with map := c.map ++ [(k2, ⟨now, v⟩)] } hfresh2 hnodup2 hlen2]
    simp [List.append_assoc]

theorem insertAll_append (now : Int) (v : String) :
    ∀ (l1 l2 : List String) (c : Cache),
      insertAll now v c (l1 ++ l2) = insertAll now v (insertAll now v c l1) l2 := by
  intro l1
  induction l1 with
  | nil => intro l2 c; rfl
  | cons k2 rest ih =>
    intro l2 c
    simp only [List.cons_append, insertAll]
    exact ih l2 (ResponseCache.set c now k2 v)

theorem keysOf_entriesOf (now : Int) (v : String) :
    ∀ ks : List String, keysOf (ks.map (fun k2 => (k2, (⟨now, v⟩ : CacheEntry)))) = ks := by
  intro ks
  induction ks with
  | nil => rfl
  | cons a t ih =>
    simp only [keysOf, List.map_cons] at ih ⊢
    rw [ih]

/-- Filling an empty cache with `maxEntries + 1` distinct sane keys leaves
exactly `maxEntries` entries, the oldest key having been evicted. -/
theorem insertAll_overflow (now ttl : Int) (v : String) (max : Nat)
    (ks : List String) (hnodup : ks.Nodup) (hks : ∀ k2 ∈ ks, k2 ≠ "")
    (hlen : ks.length = max + 1) :
    keysOf (insertAll now v ⟨ttl, max, []⟩ ks).map = ks.drop 1 ∧
    (insertAll now v ⟨ttl, max, []⟩ ks).map.length = max := by
  rcases List.eq_nil_or_concat ks with hnil | ⟨init, last, hconcat⟩
  · exfalso
    rw [hnil] at hlen
    simp only [List.length_nil] at hlen
    omega
  · rw [List.concat_eq_append] at hconcat
    subst hconcat
    have hinitlen : init.length = max := by
      simp only [List.length_append, List.length_cons, List.length_nil] at hlen
      omega
    have hinitnodup : init.Nodup := (List.nodup_append.mp hnodup).1
    have hlastfresh : last ∉ init := by
      intro hc
      have hdisj := (List.nodup_append.mp hnodup).2.2
      exact hdisj hc (by simp)
    have hfill := insertAll_no_evict now v init ⟨ttl, max, []⟩
      (by intro k2 _; simp [keysOf]) hinitnodup
      (by simp [hinitlen])
    rw [insertAll_append]
    rw [hfill]
    simp only [List.nil_append]
    set c1 : Cache :=
      { ttlMs := ttl, maxEntries := max,
        map := init.map (fun k2 => (k2, ⟨now, v⟩)) } with hc1
    have hc1keys : keysOf c1.map = init := keysOf_entriesOf now v init
    have hc1len : c1.map.length = max := by
      simp [hc1, hinitlen]
    have hstep : insertAll now v c1 [last] = ResponseCache.set c1 now last v := rfl
    rw [hstep]
    have hlastne : last ≠ "" := hks last (by simp)
    by_cases hinitnil : init = []
    · have hmax0 : max = 0 := by
        rw [← hinitlen, hinitnil]
        rfl
      have hmapnil : c1.map = [] := by
        simp [hc1, hinitnil]
      rw [set_empty_max_zero c1 now last v hlastne hmapnil (by simp [hc1, hmax0])]
      constructor
      · simp [keysOf, hinitnil]
      · simp [hmax0]
    · have hg : GoodKeys c1.map := by
        constructor
        · rw [hc1keys]
          exact hinitnodup
        · rw [hc1keys]
          intro k2 hk2
          exact hks k2 (by simp [hk2])
      have hfreshlast : mapHas c1.map last = false := by
        rw [mapHas_iff_mem_keys, hc1keys]
        exact hlastfresh
      have hc1ne : c1.map ≠ [] := by
        simp only [hc1]
        intro hc
        exact hinitnil (by simpa using hc)
      have heq := set_fresh_at_capacity c1 now last v hg hc1len hfreshlast hc1ne
      rw [heq]
      have hinitlen1 : 1 ≤ init.length := by
        cases hi : init with
        | nil => exact absurd hi hinitnil
        | cons a t => simp [hi]
      constructor
      · have hkeys2 : keysOf (c1.map.drop 1 ++ [(last, (⟨now, v⟩ : CacheEntry))]) =
            keysOf (c1.map.drop 1) ++ [last] := by
          simp [keysOf]
        rw [hkeys2, keysOf_drop, hc1keys]
        rw [List.drop_append_of_le_length hinitlen1]
      · simp only [List.length_append, List.length_drop, List.length_cons,
          List.length_nil, hc1len]
        omega

/-- C4: under the reachable-state invariant (distinct, non-empty digest keys),
`set` never leaves the cache above `maxEntries`; a `set` that would exceed a
full cache evicts exactly the oldest entry; and filling an empty cache with
`maxEntries + 1` distinct keys leaves exactly `maxEntries` entries with the
first-inserted key evicted. -/
theorem C4_cache_capacity :
    (∀ (c : Cache) (now : Int) (k v : String), GoodKeys c.map → k ≠ "" →
        c.map.length ≤ c.maxEntries →
        (ResponseCache.set c now k v).map.length ≤ c.maxEntries ∧
        GoodKeys (ResponseCache.set c now k v).map)
  ∧ (∀ (c : Cache) (now : Int) (k v : String), GoodKeys c.map →
        c.map.length = c.maxEntries → mapHas c.map k = false → c.map ≠ [] →
        (ResponseCache.set c now k v).map = c.map.drop 1 ++ [(k, ⟨now, v⟩)])
  ∧ (∀ (now ttl : Int) (v : String) (max : Nat) (ks : List String),
        ks.Nodup → (∀ k2 ∈ ks, k2 ≠ "") → ks.length = max + 1 →
        keysOf (insertAll now v ⟨ttl, max, []⟩ ks).map = ks.drop 1 ∧
        (insertAll now v ⟨ttl, max, []⟩ ks).map.length = max) := by
  refine ⟨?_, ?_, ?_⟩
  · intro c now k v hg hk hsize
    exact set_size_invariant c now k v hg hk hsize
  · intro c now k v hg hfull hfresh hne
    exact set_fresh_at_capacity c now k v hg hfull hfresh hne
  · intro now ttl v max ks h1 h2 h3
    exact insertAll_overflow now ttl v max ks h1 h2 h3

/-- Witness for C4: inserting three distinct keys into an empty capacity-2
cache leaves exactly the two newest keys. -/
theorem C4_cache_capacity_witness :
    keysOf (insertAll 0 "v" ⟨1000, 2, []⟩ ["ka", "kb", "kc"]).map = ["kb", "kc"] ∧
    (insertAll 0 "v" ⟨1000, 2, []⟩ ["ka", "kb", "kc"]).map.length = 2 :=
  C4_cache_capacity.2.2 0 1000 "v" 2 ["ka", "kb", "kc"]
    (by decide) (by decide) (by decide)

theorem foldl_onDelta (deltas : List String) :
    ∀ st : StreamState,
      (deltas.foldl onDelta st).fullText = st.fullText ++ strJoin deltas ∧
      (deltas.foldl onDelta st).events =
        st.events ++ (deltas.filter (fun d => !(d == ""))).map SSEEvent.delta := by
  induction deltas with
  | nil =>
    intro st
    simp [strJoin, String.append_empty]
  | cons d rest ih =>
    intro st
    cases hd : (d == "") with
    | true =>
      have hde : d = "" := by simpa using hd
      subst hde
      have hstep : onDelta st "" = st := by
        simp [onDelta]
      have hfilt : (("" : String) :: rest).filter (fun d2 => !(d2 == "")) =
          rest.filter (fun d2 => !(d2 == "")) := by
        simp
      have h1 := ih st
      refine ⟨?_, ?_⟩
      · simp only [List.foldl_cons, hstep, strJoin]
        rw [h1.1, String.empty_append]
      · simp only [List.foldl_cons, hstep, hfilt]
        exact h1.2
    | false =>
      have hstep : onDelta st d =
          { fullText := st.fullText ++ d, events := st.events ++ [SSEEvent.delta d] } := by
        simp [onDelta, hd]
      have hfilt : (d :: rest).filter (fun d2 => !(d2 == "")) =
          d :: rest.filter (fun d2 => !(d2 == "")) := by
        simp [List.filter_cons, hd]
      have h1 := ih { fullText := st.fullText ++ d,
                      events := st.events ++ [SSEEvent.delta d] }
      refine ⟨?_, ?_⟩
      · simp only [List.foldl_cons, hstep, strJoin]
        rw [h1.1, String.append_assoc]
      · simp only [List.foldl_cons, hstep, hfilt, List.map_cons]
        rw [h1.2, List.append_assoc]
        rfl

theorem filter_terminal_deltas (l : List String) :
    (l.map SSEEvent.delta).filter (fun ev => ev.isTerminal) = [] := by
  induction l with
  | nil => rfl
  | cons d rest ih =>
    simp [List.filter_cons, SSEEvent.isTerminal, ih]

theorem deltaConcat_append (l1 l2 : List SSEEvent) :
    deltaConcat (l1 ++ l2) = deltaConcat l1 ++ deltaConcat l2 := by
  induction l1 with
  | nil => simp [deltaConcat, String.empty_append]
  | cons ev rest ih =>
    cases ev with
    | delta d =>
      simp [deltaConcat, ih, String.append_assoc, List.append_eq]
    | done => simpa [deltaConcat] using ih
    | fail => simpa [deltaConcat] using ih

theorem deltaConcat_deltas (l : List String) :
    deltaConcat (l.map SSEEvent.delta) = strJoin l := by
  induction l with
  | nil => rfl
  | cons d rest ih =>
    simp only [List.map_cons, deltaConcat, strJoin, ih]

theorem strJoin_filter_nonempty (l : List String) :
    strJoin (l.filter (fun d => !(d == ""))) = strJoin l := by
  induction l with
  | nil => rfl
  | cons d rest ih =>
    cases hd : (d == "") with
    | true =>
      have hde : d = "" := by simpa using hd
      subst hde
      have hfilt : (("" : String) :: rest).filter (fun d2 => !(d2 == "")) =
          rest.filter (fun d2 => !(d2 == "")) := by
        simp
      rw [hfilt, ih]
      simp only [strJoin]
      rw [String.empty_append]
    | false =>
      have hfilt : (d :: rest).filter (fun d2 => !(d2 == "")) =
          d :: rest.filter (fun d2 => !(d2 == "")) := by
        simp [List.filter_cons, hd]
      rw [hfilt]
      simp only [strJoin]
      rw [ih]

/-- C6: a streaming request whose provider stream completes without error
emits an event sequence with exactly one terminal event, ending in the done
event, and a later non-streaming read of the cache under the same fingerprint
returns exactly the concatenation of the emitted deltas. -/
theorem C6_streaming (deltas : List String) (c : Cache) (now tq : Int)
    (model mode laneV message : String)
    (hcap : 1 ≤ c.maxEntries) (hsize : c.map.length ≤ c.maxEntries)
    (httl : ¬ (c.ttlMs < tq - now)) :
    (((runStreamReq deltas c now (ResponseCache.keyFor model mode laneV message)).1.filter
        (fun ev => ev.isTerminal)).length = 1)
  ∧ ((runStreamReq deltas c now (ResponseCache.keyFor model mode laneV message)).1.getLast?
      = some SSEEvent.done)
  ∧ ((ResponseCache.get
        (runStreamReq deltas c now (ResponseCache.keyFor model mode laneV message)).2 tq
        (ResponseCache.keyFor model mode laneV message)).2 =
      some (deltaConcat
        (runStreamReq deltas c now (ResponseCache.keyFor model mode laneV message)).1)) := by
  have hfold := foldl_onDelta deltas ⟨"", []⟩
  have hevents :
      (runStreamReq deltas c now (ResponseCache.keyFor model mode laneV message)).1 =
        (deltas.filter (fun d => !(d == ""))).map SSEEvent.delta ++ [SSEEvent.done] := by
    simp only [runStreamReq]
    rw [hfold.2]
    simp
  have hfull : (deltas.foldl onDelta ⟨"", []⟩).fullText = strJoin deltas := by
    rw [hfold.1, String.empty_append]
  have hmap2 :
      (runStreamReq deltas c now (ResponseCache.keyFor model mode laneV message)).2 =
        ResponseCache.set c now (ResponseCache.keyFor model mode laneV message)
          (strJoin deltas) := by
    simp only [runStreamReq]
    rw [hfull]
  refine ⟨?_, ?_, ?_⟩
  · rw [hevents, List.filter_append, filter_terminal_deltas]
    simp [SSEEvent.isTerminal]
  · rw [hevents, List.getLast?_concat]
  · have hmem := set_installs_entry c now
      (ResponseCache.keyFor model mode laneV message) (strJoin deltas) hcap hsize
    have httlc := (set_ttl_and_max c now
      (ResponseCache.keyFor model mode laneV message) (strJoin deltas)).1
    have hnot : ¬ ((ResponseCache.set c now
        (ResponseCache.keyFor model mode laneV message) (strJoin deltas)).ttlMs
          < tq - now) := by
      rw [httlc]
      exact httl
    have hdc : deltaConcat
        (runStreamReq deltas c now (ResponseCache.keyFor model mode laneV message)).1 =
          strJoin deltas := by
      rw [hevents, deltaConcat_append, deltaConcat_deltas, strJoin_filter_nonempty]
      simp [deltaConcat, String.append_empty]
    rw [hdc, hmap2]
    simp [ResponseCache.get, hmem, hnot]

/-- Witness for C6: deltas `["Hel", "", "lo"]` (one empty, skipped) on an
empty capacity-2 cache; the event list ends in the single done event and a
read 500 ms later under the same fingerprint yields the concatenation. -/
theorem C6_streaming_witness :
    (((runStreamReq ["Hel", "", "lo"] ⟨1000, 2, []⟩ 0
        (ResponseCache.keyFor "m" "official" "scholar" "hi")).1.filter
          (fun ev => ev.isTerminal)).length = 1)
  ∧ ((runStreamReq ["Hel", "", "lo"] ⟨1000, 2, []⟩ 0
        (ResponseCache.keyFor "m" "official" "scholar" "hi")).1.getLast?
      = some SSEEvent.done)
  ∧ ((ResponseCache.get
        (runStreamReq ["Hel", "", "lo"] ⟨1000, 2, []⟩ 0
          (ResponseCache.keyFor "m" "official" "scholar" "hi")).2 500
        (ResponseCache.keyFor "m" "official" "scholar" "hi")).2 =
      some (deltaConcat
        (runStreamReq ["Hel", "", "lo"] ⟨1000, 2, []⟩ 0
          (ResponseCache.keyFor "m" "official" "scholar" "hi")).1)) :=
  C6_streaming ["Hel", "", "lo"] ⟨1000, 2, []⟩ 0 500 "m" "official" "scholar" "hi"
    (by decide) (by decide) (by decide)

/-- Parsed values that are null or not objects (strings, numbers, booleans):
neither the items shape nor the sections shape. -/
def NonObjectInput (j : Json) : Prop :=
  j = Json.null ∨ (∃ s, j = Json.str s) ∨ (∃ n, j = Json.num n) ∨
    (∃ b, j = Json.bool b)

theorem buildKnowledgeText_nonObject (j : Json) (hj : NonObjectInput j) :
    buildKnowledgeText j = "" := by
  rcases hj with h | ⟨s, h⟩ | ⟨n, h⟩ | ⟨b, h⟩ <;> subst h <;>
    simp [buildKnowledgeText, Json.truthy, Json.typeofObject]

theorem load_forced (st : KMState) (mtime : Int) (j : Json) :
    KnowledgeManager.load st mtime j true =
      (⟨mtime, some j, buildKnowledgeText j⟩, true) := by
  simp [KnowledgeManager.load]

/-- C2 counterexample: the number 42 parses as valid structured data but is
neither recognized document shape; `load` nevertheless succeeds, reports a
change, and installs it as the document (with empty rendered text).  There is
no FormatError path in the code. -/
theorem C2_counterexample :
    KnowledgeManager.load ⟨0, none, ""⟩ 5 (Json.num 42) true =
      (⟨5, some (Json.num 42), ""⟩, true) := by
  rfl

/-- C2 amended: `load` never fails on document shape: every successfully
parsed value is installed as the document together with its rendered text,
and values of neither recognized shape (null / non-objects) render to the
empty string rather than failing. -/
theorem C2_load_installs_any_shape (st : KMState) (mtime : Int) (j : Json) :
    KnowledgeManager.load st mtime j true =
      (⟨mtime, some j, buildKnowledgeText j⟩, true)
  ∧ (NonObjectInput j → buildKnowledgeText j = "") := by
  exact ⟨load_forced st mtime j, buildKnowledgeText_nonObject j⟩

/-- Witness for C2 (amended): forced load of the parsed value `false`
installs it with empty rendered text and reports a change. -/
theorem C2_load_installs_any_shape_witness :
    KnowledgeManager.load ⟨3, some (Json.obj []), "x"⟩ 9 (Json.bool false) true =
      (⟨9, some (Json.bool false), ""⟩, true) := by
  have h := C2_load_installs_any_shape ⟨3, some (Json.obj []), "x"⟩ 9 (Json.bool false)
  have hb := h.2 (Or.inr (Or.inr (Or.inr ⟨false, rfl⟩)))
  rw [← hb]
  exact h.1

theorem load_noop_aux (mtime : Int) (parsed : Json) (st2 : KMState)
    (h1 : mtime ≤ st2.lastMtimeMs) (h2 : optionTruthy st2.knowledgeJson = true) :
    KnowledgeManager.load st2 mtime parsed false = (st2, false) := by
  simp [KnowledgeManager.load, h1, h2]

/-- C8 counterexample: with the document loaded from a file whose content is
the valid JSON `null` (a falsy value), a second unforced load with an
unchanged modification time is NOT a no-op: it reports `changed = true`
again, because the guard tests the truthiness of the installed document. -/
theorem C8_counterexample :
    (KnowledgeManager.load ⟨0, none, ""⟩ 5 Json.null false =
      (⟨5, some Json.null, ""⟩, true))
  ∧ ((5 : Int) ≤ 5)
  ∧ ((KnowledgeManager.load ⟨5, some Json.null, ""⟩ 5 Json.null false).2 = true) := by
  refine ⟨rfl, le_refl 5, rfl⟩

/-- C8 amended: `load(force=false)` is a no-op returning `changed = false`
when the file's modification time is not newer than the recorded one AND the
installed document is JavaScript-truthy; in particular, two successive
unforced loads of an unchanged file whose parsed document is truthy yield
`changed = false` the second time and leave the state (hence `renderedText`)
unchanged. -/
theorem C8_load_noop (st : KMState) (mtime : Int) (parsed : Json)
    (hp : parsed.truthy = true) :
    (∀ (st2 : KMState) (j2 : Json), st2.knowledgeJson = some j2 →
        j2.truthy = true → mtime ≤ st2.lastMtimeMs →
        KnowledgeManager.load st2 mtime parsed false = (st2, false))
  ∧ KnowledgeManager.load
      (KnowledgeManager.load st mtime parsed false).1 mtime parsed false =
    ((KnowledgeManager.load st mtime parsed false).1, false) := by
  constructor
  · intro st2 j2 hj2 ht2 hm2
    refine load_noop_aux mtime parsed st2 hm2 ?_
    rw [hj2]
    simpa [optionTruthy] using ht2
  · cases hc : (decide (mtime ≤ st.lastMtimeMs) && optionTruthy st.knowledgeJson) with
    | true =>
      have hab : decide (mtime ≤ st.lastMtimeMs) = true ∧
          optionTruthy st.knowledgeJson = true := by
        simpa using hc
      obtain ⟨ha, hb⟩ := hab
      have hfirst : KnowledgeManager.load st mtime parsed false = (st, false) :=
        load_noop_aux mtime parsed st (of_decide_eq_true ha) hb
      rw [hfirst]
      exact hfirst
    | false =>
      have hfirst : KnowledgeManager.load st mtime parsed false =
          (⟨mtime, some parsed, buildKnowledgeText parsed⟩, true) := by
        simp only [KnowledgeManager.load, Bool.not_false, Bool.true_and, hc,
          Bool.false_eq_true, if_false]
      rw [hfirst]
      exact load_noop_aux mtime parsed ⟨mtime, some parsed, buildKnowledgeText parsed⟩
        (le_refl mtime) (by simpa [optionTruthy] using hp)

/-- Witness for C8 (amended): after loading an object-shaped (truthy)
document, a second unforced load at the same modification time is a no-op
returning `false`. -/
theorem C8_load_noop_witness :
    KnowledgeManager.load
      (KnowledgeManager.load ⟨0, none, ""⟩ 5 (Json.obj [("a", Json.str "x")]) false).1
      5 (Json.obj [("a", Json.str "x")]) false =
    ((KnowledgeManager.load ⟨0, none, ""⟩ 5 (Json.obj [("a", Json.str "x")]) false).1,
      false) :=
  (C8_load_noop ⟨0, none, ""⟩ 5 (Json.obj [("a", Json.str "x")]) rfl).2

/-- C10: for null or non-object parsed values `buildKnowledgeText` returns
the empty string; a (forced) load of such a value succeeds and installs it as
the document with empty rendered text, the store text is empty, and every
scholar-lane prompt built from it carries the explicit not-loaded marker. -/
theorem C10_non_object_renders_empty (j : Json) (st : KMState) (mtime : Int)
    (message mode : String) (hj : NonObjectInput j) :
    buildKnowledgeText j = ""
  ∧ KnowledgeManager.load st mtime j true = (⟨mtime, some j, ""⟩, true)
  ∧ KnowledgeManager.getText ⟨mtime, some j, ""⟩ = ""
  ∧ (lane message = "scholar" →
      SubstrOf "\nKNOWLEDGE: (not loaded)\n"
        (systemText message mode (KnowledgeManager.getText ⟨mtime, some j, ""⟩))) := by
  have hb := buildKnowledgeText_nonObject j hj
  refine ⟨hb, ?_, rfl, ?_⟩
  · rw [load_forced, hb]
  · intro hsch
    have hcond : (lane message == "local") = false := by
      rw [hsch]
      decide
    refine ⟨(jsTrim SYSTEM_POLICY_SCHOLAR ++ "\n\nMODE: " ++ mode ++ "\n").data, [], ?_⟩
    simp [systemText, hcond, KnowledgeManager.getText, String.data_append,
      List.append_assoc]

/-- Witness for C10: the parsed value 7 (a number) renders to the empty
string, is installed by a successful load, and the resulting scholar prompt
carries the not-loaded marker. -/
theorem C10_non_object_renders_empty_witness :
    buildKnowledgeText (Json.num 7) = ""
  ∧ KnowledgeManager.load ⟨0, none, ""⟩ 5 (Json.num 7) true =
      (⟨5, some (Json.num 7), ""⟩, true)
  ∧ KnowledgeManager.getText ⟨5, some (Json.num 7), ""⟩ = ""
  ∧ SubstrOf "\nKNOWLEDGE: (not loaded)\n"
      (systemText "hello" "official" (KnowledgeManager.getText ⟨5, some (Json.num 7), ""⟩)) := by
  have h := C10_non_object_renders_empty (Json.num 7) ⟨0, none, ""⟩ 5 "hello" "official"
    (Or.inr (Or.inr (Or.inl ⟨7, rfl⟩)))
  exact ⟨h.1, h.2.1, h.2.2.1, h.2.2.2 (by decide)⟩
